import Mathlib

/-!
Verification development for the chat server of `chat.rs` (`src/server.rs`).

The server keeps a shared `ServerState` (display name, message history and a
map from socket address to the send half of each peer), and runs one
connection handler per accepted session (`Server::handle`).  The handler
merges two event sources (`RecvPeer::poll_next`): the internal per-session
queue (broadcasts from other sessions) and the framed network transport.

The embedding below models socket addresses as abstract identifiers,
the peer `HashMap` as an association list, each unbounded channel as the
list of operations pushed onto it together with a flag telling whether the
receiving half is still attached, and the session's transport writes as a
list of server commands, each write drawing from a script of success bits
(a failed write makes the handler return early through the `?` operator,
exactly as in the source).  Decoding of incoming JSON lines is kept
abstract as a `String → Option ClientCommand` parameter.
-/

namespace ChatRs

/-- Socket addresses, the per-connection identity; abstracted to `Nat`. -/
abbrev Addr := Nat

/-- Display name of a user (`pub type User = String` in `message.rs`). -/
abbrev User := String

/-- Normal messages (`Message` in `message.rs`): one variant, `Text`. -/
inductive Message where
  | Text (s : String)
  deriving DecidableEq

/-- Commands from client to server (`ClientCommand` in `protocol.rs`). -/
inductive ClientCommand where
  | SetName (s : String)
  | SendMessage (m : Message)
  deriving DecidableEq

/-- Commands from server to client (`ServerCommand`).  The snapshot's
`protocol.rs` lists four variants; `server.rs` additionally sends
`ServerName` and the app files decode it, so the variant is included. -/
inductive ServerCommand where
  | UserMessage (u : User) (m : Message)
  | ServerMessage (m : Message)
  | UserList (l : List (User × Addr))
  | Error (s : String)
  | ServerName (s : String)
  deriving DecidableEq

/-- The three logical origins of an event a session reacts to
(`Operation` in `protocol.rs`). -/
inductive Operation where
  | FromClient (c : ClientCommand)
  | FromPeer (u : User) (m : Message)
  | FromServer (c : ServerCommand)
  deriving DecidableEq

/-- Send half of a peer as stored in the registry (`SendPeer` in
`server.rs`): the channel it can be reached through (modelled by the list
of operations pushed so far plus whether the receiving half is gone),
the current username and the socket address. -/
structure SendPeer where
  queue : List Operation
  closed : Bool
  username : User
  addr : Addr
  deriving DecidableEq

/-- Shared server state (`ServerState` in `server.rs`): server display
name, append-only history of `(User, Message)`, and the map from socket
address to `SendPeer`, modelled as an association list. -/
structure ServerState where
  name : String
  history : List (User × Message)
  peers : List (Addr × SendPeer)
  deriving DecidableEq

/-- Push an operation onto one peer's channel: `peer.tx.send(op)` with the
send error ignored (`let _ = ...`), so a push to a channel whose receiving
half is dropped leaves it unchanged. -/
def pushOp (p : SendPeer) (op : Operation) : SendPeer :=
  if p.closed then p else { p with queue := p.queue ++ [op] }

/-- `ServerState::broadcast`: push `op` to every registered peer whose
address is not in `excludes`. -/
def broadcast (st : ServerState) (op : Operation) (excludes : List Addr) :
    ServerState :=
  { st with peers := st.peers.map fun ap =>
      if excludes.contains ap.1 then ap else (ap.1, pushOp ap.2 op) }

/-- The user list derived by `ServerState::broadcast_user_list`:
`(username, addr)` of every registered peer, filtered to non-empty names. -/
def userListEntries (st : ServerState) : List (User × Addr) :=
  (st.peers.map fun ap => (ap.2.username, ap.2.addr)).filter
    fun na => !na.1.isEmpty

/-- `ServerState::broadcast_user_list`: wrap the derived user list in a
`UserList` server command and broadcast it with no exclusion. -/
def broadcast_user_list (st : ServerState) : ServerState :=
  broadcast st (Operation.FromServer (ServerCommand.UserList (userListEntries st))) []

/-- The username update performed in the `SetName` arm of `Server::handle`
(`state.peers.get_mut(&addr)` followed by `send_peer.username = new_name`):
the record at `addr`, when present, gets the new name. -/
def setUsername (st : ServerState) (addr : Addr) (n : User) : ServerState :=
  { st with peers := st.peers.map fun ap =>
      if ap.1 = addr then (ap.1, { ap.2 with username := n }) else ap }

/-- `RecvPeer::register`: allocate a fresh channel and insert the send half
into the shared state with an empty username (`HashMap::insert`: replaces
an existing record at the same address, otherwise adds a new one). -/
def register (st : ServerState) (addr : Addr) : ServerState :=
  { st with peers :=
      if st.peers.any fun ap => ap.1 = addr then
        st.peers.map fun ap =>
          if ap.1 = addr then (addr, SendPeer.mk [] false "" addr) else ap
      else st.peers ++ [(addr, SendPeer.mk [] false "" addr)] }

/-- One item produced by the merged stream of `RecvPeer::poll_next`:
either a successfully obtained operation, or an error item (a transport
read error or a line that failed to decode, both surfaced as `Some(Err(e))`
by `poll_next`). -/
inductive Item where
  | ok (op : Operation)
  | err
  deriving DecidableEq

/-- One event available on the network transport: a complete line, or an
input/output error reported by the framed stream.  End of stream is the
exhaustion of the list. -/
inductive TransportItem where
  | line (s : String)
  | ioErr
  deriving DecidableEq

/-- `RecvPeer::poll_next` on available data: the internal queue is polled
first and a pending operation there is returned at once; only otherwise is
the transport polled, where a line is decoded into `FromClient` (a decode
failure becoming an error item through `?`), an input/output error becomes
an error item, and end of stream ends the merged stream (`none`).  Returns
the produced item (or `none` for stream end) with the remaining queue and
transport. -/
def poll_next (decode : String → Option ClientCommand)
    (rxq : List Operation) (transport : List TransportItem) :
    Option Item × List Operation × List TransportItem :=
  match rxq with
  | op :: rest => (some (Item.ok op), rest, transport)
  | [] =>
    match transport with
    | [] => (none, [], [])
    | TransportItem.line s :: rest =>
      match decode s with
      | some c => (some (Item.ok (Operation.FromClient c)), [], rest)
      | none => (some Item.err, [], rest)
    | TransportItem.ioErr :: rest => (some Item.err, [], rest)

/-- Loop state of one run of `Server::handle`: the shared state as seen
under the lock, the local `name` variable, and the commands written so far
to this session's own transport. -/
structure HandlerCtx where
  st : ServerState
  name : String
  out : List ServerCommand
  deriving DecidableEq

/-- One write to the session's own transport (the `send!` helper in
`Server::handle`).  The script `ws` supplies one success bit per write
(an empty script means every write succeeds); a failed write is the `?`
early return, carrying the context at that point with nothing written. -/
def tryWrite (ctx : HandlerCtx) (c : ServerCommand) (ws : List Bool) :
    Except HandlerCtx (HandlerCtx × List Bool) :=
  match ws with
  | [] => Except.ok ({ ctx with out := ctx.out ++ [c] }, [])
  | b :: rest =>
    if b then Except.ok ({ ctx with out := ctx.out ++ [c] }, rest)
    else Except.error ctx

/-- One iteration of the event loop of `Server::handle`, mirroring its
match arms in source order: `SetName` (ignored when empty; otherwise the
registry name is updated, a welcome message is broadcast and the server
name written back on a first successful set, and the user list is always
broadcast afterwards); any other client command while the local name is
still empty is ignored; `SendMessage` appends to history and broadcasts
`FromPeer` with no exclusion; `FromPeer` and `FromServer` are written to
the session's own transport; an error item is answered with
`Error("What's that?")`. -/
def handleStep (addr : Addr) (ctx : HandlerCtx) (it : Item) (ws : List Bool) :
    Except HandlerCtx (HandlerCtx × List Bool) :=
  match it with
  | Item.ok (Operation.FromClient (ClientCommand.SetName new_name)) =>
    if new_name.isEmpty then Except.ok (ctx, ws)
    else
      let st1 := setUsername ctx.st addr new_name
      if ctx.name.isEmpty then
        let st2 := broadcast st1
          (Operation.FromServer (ServerCommand.ServerMessage
            (Message.Text ("Welcome, " ++ new_name ++ "!")))) []
        match tryWrite { ctx with st := st2 } (ServerCommand.ServerName st2.name) ws with
        | Except.error c => Except.error c
        | Except.ok (ctx2, ws2) =>
          Except.ok ({ ctx2 with st := broadcast_user_list ctx2.st, name := new_name }, ws2)
      else
        Except.ok ({ ctx with st := broadcast_user_list st1, name := new_name }, ws)
  | Item.ok (Operation.FromClient (ClientCommand.SendMessage m)) =>
    if ctx.name.isEmpty then Except.ok (ctx, ws)
    else
      let st1 := { ctx.st with history := ctx.st.history ++ [(ctx.name, m)] }
      let st2 := broadcast st1 (Operation.FromPeer ctx.name m) []
      Except.ok ({ ctx with st := st2 }, ws)
  | Item.ok (Operation.FromPeer u m) =>
    tryWrite ctx (ServerCommand.UserMessage u m) ws
  | Item.ok (Operation.FromServer c) =>
    tryWrite ctx c ws
  | Item.err =>
    tryWrite ctx (ServerCommand.Error "What's that?") ws

/-- The event loop of `Server::handle` over a list of delivered items: each
iteration either continues with the updated context, or returns early when
a transport write fails (the `?` operator propagating out of the loop). -/
def runLoop (addr : Addr) (ctx : HandlerCtx) (items : List Item)
    (ws : List Bool) : Except HandlerCtx (HandlerCtx × List Bool) :=
  match items with
  | [] => Except.ok (ctx, ws)
  | it :: rest =>
    match handleStep addr ctx it ws with
    | Except.error c => Except.error c
    | Except.ok (ctx2, ws2) => runLoop addr ctx2 rest ws2

/-- The release-resources block at the end of `Server::handle`: remove this
address from the registry, broadcast `ServerMessage("{name} left.")`, then
broadcast the updated user list. -/
def teardown (addr : Addr) (ctx : HandlerCtx) : HandlerCtx :=
  let st1 := { ctx.st with peers := ctx.st.peers.filter fun ap => ap.1 ≠ addr }
  let st2 := broadcast st1
    (Operation.FromServer (ServerCommand.ServerMessage
      (Message.Text (ctx.name ++ " left.")))) []
  { ctx with st := broadcast_user_list st2 }

/-- `Server::handle` after registration: run the event loop from an empty
local name over the delivered items; on normal loop exit (end of the merged
stream) run the teardown block, while an early return through `?` (a failed
transport write) skips it. -/
def handle (addr : Addr) (st : ServerState) (items : List Item)
    (ws : List Bool) : Except HandlerCtx HandlerCtx :=
  match runLoop addr (HandlerCtx.mk st "" []) items ws with
  | Except.error c => Except.error c
  | Except.ok (ctx, _) => Except.ok (teardown addr ctx)

/-- Tells whether a stream item is a `SetName` that the handler accepts
(a non-empty requested name); every other item leaves the local name
unchanged in `Server::handle`. -/
def acceptedSetName (it : Item) : Bool :=
  match it with
  | Item.ok (Operation.FromClient (ClientCommand.SetName s)) => !s.isEmpty
  | _ => false

/-- Concrete registry with two connected named sessions, "alice" at
address 0 and "bob" at address 1, both queues open and empty. -/
def twoNamedPeers : ServerState :=
  ServerState.mk "srv" []
    [(0, SendPeer.mk [] false "alice" 0), (1, SendPeer.mk [] false "bob" 1)]

/-- Concrete registry with a not-yet-named session at address 0 and a named
session "bob" at address 1. -/
def freshAndBob : ServerState :=
  ServerState.mk "srv" []
    [(0, SendPeer.mk [] false "" 0), (1, SendPeer.mk [] false "bob" 1)]

/-- Concrete registry with a not-yet-named session at address 5 and a named
session "dave" at address 9. -/
def freshAndDave : ServerState :=
  ServerState.mk "srv" []
    [(5, SendPeer.mk [] false "" 5), (9, SendPeer.mk [] false "dave" 9)]

/-- Concrete decoder recognising exactly one line, standing in for the JSON
decoding of `ClientCommand` (kept abstract in this development). -/
def carolDecode : String → Option ClientCommand :=
  fun s => if s = "sn" then some (ClientCommand.SetName "carol") else none

/-! ## Basic lemmas about the registry operations -/

theorem pushOp_username (p : SendPeer) (op : Operation) :
    (pushOp p op).username = p.username := by
  unfold pushOp; split <;> rfl

theorem pushOp_addr (p : SendPeer) (op : Operation) :
    (pushOp p op).addr = p.addr := by
  unfold pushOp; split <;> rfl

theorem pushOp_closed (p : SendPeer) (op : Operation) :
    (pushOp p op).closed = p.closed := by
  unfold pushOp; split <;> rfl

theorem pushOp_of_closed {p : SendPeer} (op : Operation) (h : p.closed = true) :
    pushOp p op = p := by
  simp [pushOp, h]

theorem pushOp_queue_of_open {p : SendPeer} (op : Operation) (h : p.closed = false) :
    (pushOp p op).queue = p.queue ++ [op] := by
  simp [pushOp, h]

theorem broadcast_name (st : ServerState) (op : Operation) (ex : List Addr) :
    (broadcast st op ex).name = st.name := rfl

theorem broadcast_history (st : ServerState) (op : Operation) (ex : List Addr) :
    (broadcast st op ex).history = st.history := rfl

theorem broadcast_peers_length (st : ServerState) (op : Operation) (ex : List Addr) :
    (broadcast st op ex).peers.length = st.peers.length := by
  simp [broadcast]

theorem mem_broadcast_peers {st : ServerState} {a : Addr} {p : SendPeer}
    (op : Operation) (ex : List Addr) (h : (a, p) ∈ st.peers) :
    (a, if ex.contains a then p else pushOp p op) ∈ (broadcast st op ex).peers := by
  unfold broadcast
  refine List.mem_map.2 ⟨(a, p), h, ?_⟩
  show (if ex.contains a = true then ((a, p) : Addr × SendPeer) else (a, pushOp p op))
      = (a, if ex.contains a = true then p else pushOp p op)
  by_cases hc : ex.contains a = true
  · rw [if_pos hc, if_pos hc]
  · rw [if_neg hc, if_neg hc]

theorem mem_broadcast_nil_peers {st : ServerState} {a : Addr} {p : SendPeer}
    (op : Operation) (h : (a, p) ∈ st.peers) :
    (a, pushOp p op) ∈ (broadcast st op []).peers := by
  have h2 := mem_broadcast_peers op [] h
  simpa using h2

theorem userListEntries_broadcast (st : ServerState) (op : Operation) (ex : List Addr) :
    userListEntries (broadcast st op ex) = userListEntries st := by
  unfold userListEntries broadcast
  simp only [List.map_map]
  congr 1
  apply List.map_congr_left
  intro ap _
  show (fun ap : Addr × SendPeer => (ap.2.username, ap.2.addr))
      (if ex.contains ap.1 = true then ap else (ap.1, pushOp ap.2 op))
      = (ap.2.username, ap.2.addr)
  by_cases hc : ex.contains ap.1 = true
  · rw [if_pos hc]
  · rw [if_neg hc]
    show ((pushOp ap.2 op).username, (pushOp ap.2 op).addr) = (ap.2.username, ap.2.addr)
    rw [pushOp_username, pushOp_addr]

theorem setUsername_name (st : ServerState) (addr : Addr) (n : User) :
    (setUsername st addr n).name = st.name := rfl

theorem setUsername_history (st : ServerState) (addr : Addr) (n : User) :
    (setUsername st addr n).history = st.history := rfl

theorem mem_setUsername_peers {st : ServerState} {a : Addr} {p : SendPeer}
    (addr : Addr) (n : User) (h : (a, p) ∈ st.peers) :
    (a, if a = addr then { p with username := n } else p) ∈ (setUsername st addr n).peers := by
  unfold setUsername
  refine List.mem_map.2 ⟨(a, p), h, ?_⟩
  show (if a = addr then (a, { p with username := n }) else ((a, p) : Addr × SendPeer))
      = (a, if a = addr then { p with username := n } else p)
  by_cases hc : a = addr
  · rw [if_pos hc, if_pos hc]
  · rw [if_neg hc, if_neg hc]

theorem broadcast_user_list_name (st : ServerState) :
    (broadcast_user_list st).name = st.name := rfl

theorem broadcast_user_list_history (st : ServerState) :
    (broadcast_user_list st).history = st.history := rfl

theorem mem_broadcast_user_list_peers {st : ServerState} {a : Addr} {p : SendPeer}
    (h : (a, p) ∈ st.peers) :
    (a, pushOp p (Operation.FromServer (ServerCommand.UserList (userListEntries st))))
      ∈ (broadcast_user_list st).peers := by
  exact mem_broadcast_nil_peers _ h

theorem not_isEmpty_iff (s : String) : (!s.isEmpty) = true ↔ s ≠ "" := by
  rw [Bool.not_eq_true', ← Bool.not_eq_true]
  exact not_congr (String.isEmpty_iff s)

/-- Membership in the derived user list: `(u, ad)` appears exactly when some
registered peer has that non-empty username and that address field. -/
theorem mem_userListEntries (st : ServerState) (u : User) (ad : Addr) :
    (u, ad) ∈ userListEntries st ↔
      (∃ a p, (a, p) ∈ st.peers ∧ p.username = u ∧ p.addr = ad) ∧ u ≠ "" := by
  unfold userListEntries
  simp only [List.mem_filter, List.mem_map, not_isEmpty_iff]
  constructor
  · rintro ⟨⟨⟨a, p⟩, hap, heq⟩, hne⟩
    cases heq
    exact ⟨⟨a, p, hap, rfl, rfl⟩, hne⟩
  · rintro ⟨⟨a, p, hap, h1, h2⟩, hne⟩
    exact ⟨⟨⟨a, p⟩, hap, by rw [h1, h2]⟩, hne⟩

/-! ## Claim theorems -/

/-- C7: whenever the internal per-session queue has a pending item, the
merged event source of `RecvPeer::poll_next` returns that internal item,
leaving the network transport untouched, whatever lines or errors (or
nothing at all) the transport holds: internal notices take priority over
any pending network line and are never starved by the network source. -/
theorem C7_internal_queue_priority (decode : String → Option ClientCommand)
    (op : Operation) (rxq : List Operation) (transport : List TransportItem) :
    poll_next decode (op :: rxq) transport = (some (Item.ok op), rxq, transport) := rfl

/-- C4: while the session is still unnamed (local name empty, no accepted
`SetName` yet), a `FromClient(SendMessage(text))` event is a no-op: the
handler context — shared server state, history, every peer queue, the local
name and the session's own transport output — is returned unchanged, and
nothing is written. -/
theorem C4_naming_gate (addr : Addr) (ctx : HandlerCtx) (m : Message)
    (ws : List Bool) (h : ctx.name = "") :
    handleStep addr ctx (Item.ok (Operation.FromClient (ClientCommand.SendMessage m))) ws
      = Except.ok (ctx, ws) := by
  have hE : ctx.name.isEmpty = true := by rw [h]; rfl
  simp [handleStep, hE]

theorem C4_naming_gate_witness :
    handleStep 0 (HandlerCtx.mk freshAndBob "" [])
        (Item.ok (Operation.FromClient (ClientCommand.SendMessage (Message.Text "x")))) []
      = Except.ok (HandlerCtx.mk freshAndBob "" [], []) :=
  C4_naming_gate 0 (HandlerCtx.mk freshAndBob "" []) (Message.Text "x") [] rfl

/-- C5: a line that does not decode into a `ClientCommand` is recoverable:
`poll_next` turns it into an error item while the transport continues with
the following lines, and the event loop answers an error item by writing
`Error("What's that?")` to the offending client's own transport only —
shared state, local name and every peer queue unchanged — and then keeps
processing the remaining items exactly as it would have without the error,
so a subsequent well-formed command is still processed. -/
theorem C5_decode_error_recoverable (decode : String → Option ClientCommand)
    (s : String) (rest : List TransportItem) (addr : Addr) (ctx : HandlerCtx)
    (items : List Item) (h : decode s = none) :
    poll_next decode [] (TransportItem.line s :: rest) = (some Item.err, [], rest) ∧
    runLoop addr ctx (Item.err :: items) [] =
      runLoop addr { ctx with out := ctx.out ++ [ServerCommand.Error "What's that?"] }
        items [] := by
  constructor
  · simp [poll_next, h]
  · rfl

theorem C5_decode_error_recoverable_witness :
    poll_next (fun _ => none) [] [TransportItem.line "garbage"]
        = (some Item.err, [], []) ∧
      runLoop 0 (HandlerCtx.mk freshAndBob "" [])
          [Item.err, Item.ok (Operation.FromClient (ClientCommand.SetName "alice"))] [] =
        runLoop 0 { HandlerCtx.mk freshAndBob "" [] with
            out := [] ++ [ServerCommand.Error "What's that?"] }
          [Item.ok (Operation.FromClient (ClientCommand.SetName "alice"))] [] :=
  C5_decode_error_recoverable (fun _ => none) "garbage" [] 0
    (HandlerCtx.mk freshAndBob "" [])
    [Item.ok (Operation.FromClient (ClientCommand.SetName "alice"))] rfl

/-- C9: `ServerState::broadcast` never fails: every registered peer keeps a
record with the same username, address and closed flag; a peer whose
receiving half is detached (or one in the exclude set) keeps its queue
unchanged — the push is silently dropped — while every other peer gets the
operation appended; the server name, history and number of registered peers
are untouched. -/
theorem C9_closed_push_dropped (st : ServerState) (op : Operation)
    (excludes : List Addr) (a : Addr) (p : SendPeer) (h : (a, p) ∈ st.peers) :
    (broadcast st op excludes).name = st.name ∧
    (broadcast st op excludes).history = st.history ∧
    (broadcast st op excludes).peers.length = st.peers.length ∧
    ∃ p', (a, p') ∈ (broadcast st op excludes).peers ∧
      p'.username = p.username ∧ p'.addr = p.addr ∧ p'.closed = p.closed ∧
      p'.queue = if excludes.contains a = true then p.queue
        else if p.closed = true then p.queue else p.queue ++ [op] := by
  refine ⟨rfl, rfl, broadcast_peers_length st op excludes, ?_⟩
  refine ⟨if excludes.contains a then p else pushOp p op,
    mem_broadcast_peers op excludes h, ?_, ?_, ?_, ?_⟩
  · by_cases hc : excludes.contains a = true
    · rw [if_pos hc]
    · rw [if_neg hc, pushOp_username]
  · by_cases hc : excludes.contains a = true
    · rw [if_pos hc]
    · rw [if_neg hc, pushOp_addr]
  · by_cases hc : excludes.contains a = true
    · rw [if_pos hc]
    · rw [if_neg hc, pushOp_closed]
  · by_cases hc : excludes.contains a = true
    · rw [if_pos hc, if_pos hc]
    · rw [if_neg hc, if_neg hc]
      by_cases hcl : p.closed = true
      · rw [if_pos hcl, pushOp_of_closed op hcl]
      · rw [if_neg hcl, pushOp_queue_of_open op (Bool.eq_false_iff.mpr hcl)]

theorem C9_closed_push_dropped_witness :
    (broadcast (ServerState.mk "srv" [] [(3, SendPeer.mk [] true "eve" 3)])
        (Operation.FromPeer "bob" (Message.Text "hi")) []).name = "srv" ∧
    (broadcast (ServerState.mk "srv" [] [(3, SendPeer.mk [] true "eve" 3)])
        (Operation.FromPeer "bob" (Message.Text "hi")) []).history = [] ∧
    (broadcast (ServerState.mk "srv" [] [(3, SendPeer.mk [] true "eve" 3)])
        (Operation.FromPeer "bob" (Message.Text "hi")) []).peers.length =
      [(3, SendPeer.mk [] true "eve" 3)].length ∧
    ∃ p', (3, p') ∈ (broadcast (ServerState.mk "srv" [] [(3, SendPeer.mk [] true "eve" 3)])
          (Operation.FromPeer "bob" (Message.Text "hi")) []).peers ∧
      p'.username = (SendPeer.mk ([] : List Operation) true "eve" 3).username ∧
      p'.addr = (SendPeer.mk ([] : List Operation) true "eve" 3).addr ∧
      p'.closed = (SendPeer.mk ([] : List Operation) true "eve" 3).closed ∧
      p'.queue = if ([] : List Addr).contains 3 = true then []
        else if (SendPeer.mk ([] : List Operation) true "eve" 3).closed = true then []
        else [] ++ [Operation.FromPeer "bob" (Message.Text "hi")] :=
  C9_closed_push_dropped (ServerState.mk "srv" [] [(3, SendPeer.mk [] true "eve" 3)])
    (Operation.FromPeer "bob" (Message.Text "hi")) [] 3
    (SendPeer.mk [] true "eve" 3) (List.mem_singleton.mpr rfl)

/-- C1 counterexample: with two connected named sessions, "alice" (address
0) and "bob" (address 1), processing `SendMessage(Text "x")` at alice's
session pushes `FromPeer("alice", "x")` onto the queues of **both**
sessions — `Server::handle` broadcasts with an empty exclude list — and
when alice's session later dequeues that operation it writes
`UserMessage("alice", "x")` to alice's own transport.  This refutes the
claim that exactly the N−1 other sessions receive `UserMessage(A, "x")`
and that session A never receives an echo of its own message. -/
theorem C1_counterexample :
    handleStep 0 (HandlerCtx.mk twoNamedPeers "alice" [])
        (Item.ok (Operation.FromClient (ClientCommand.SendMessage (Message.Text "x")))) []
      = Except.ok (HandlerCtx.mk
          (ServerState.mk "srv" [("alice", Message.Text "x")]
            [(0, SendPeer.mk [Operation.FromPeer "alice" (Message.Text "x")] false "alice" 0),
             (1, SendPeer.mk [Operation.FromPeer "alice" (Message.Text "x")] false "bob" 1)])
          "alice" [], []) ∧
    handleStep 0 (HandlerCtx.mk
        (ServerState.mk "srv" [("alice", Message.Text "x")]
          [(0, SendPeer.mk [] false "alice" 0),
           (1, SendPeer.mk [Operation.FromPeer "alice" (Message.Text "x")] false "bob" 1)])
        "alice" [])
        (Item.ok (Operation.FromPeer "alice" (Message.Text "x"))) []
      = Except.ok (HandlerCtx.mk
          (ServerState.mk "srv" [("alice", Message.Text "x")]
            [(0, SendPeer.mk [] false "alice" 0),
             (1, SendPeer.mk [Operation.FromPeer "alice" (Message.Text "x")] false "bob" 1)])
          "alice" [ServerCommand.UserMessage "alice" (Message.Text "x")], []) :=
  ⟨rfl, rfl⟩

/-- C1 amended: a `SendMessage(m)` processed at a named session appends
`(name, m)` to the history and pushes `FromPeer(name, m)` onto the queue of
**every** registered peer with an attached queue — the exclude list is
empty, so the sender is included — and every session that dequeues a
`FromPeer(u, m)` operation (the sender's own session included) writes
`UserMessage(u, m)` to its client: all N sessions receive the message, and
the sender receives an echo of its own message. -/
theorem C1_broadcast_includes_sender (addr : Addr) (ctx : HandlerCtx)
    (m : Message) (ws : List Bool) (h : ctx.name ≠ "") :
    ∃ ctx', handleStep addr ctx
        (Item.ok (Operation.FromClient (ClientCommand.SendMessage m))) ws
        = Except.ok (ctx', ws) ∧
      ctx'.name = ctx.name ∧ ctx'.out = ctx.out ∧
      ctx'.st.name = ctx.st.name ∧
      ctx'.st.history = ctx.st.history ++ [(ctx.name, m)] ∧
      ctx'.st.peers.length = ctx.st.peers.length ∧
      (∀ a p, (a, p) ∈ ctx.st.peers → p.closed = false →
        ∃ p', (a, p') ∈ ctx'.st.peers ∧ p'.username = p.username ∧
          p'.queue = p.queue ++ [Operation.FromPeer ctx.name m]) ∧
      (∀ (addr2 : Addr) (ctx2 : HandlerCtx) (u : User),
        handleStep addr2 ctx2 (Item.ok (Operation.FromPeer u m)) []
          = Except.ok ({ ctx2 with out := ctx2.out ++ [ServerCommand.UserMessage u m] },
              [])) := by
  have hE : ctx.name.isEmpty = false :=
    Bool.eq_false_iff.mpr fun hh => h ((String.isEmpty_iff ctx.name).mp hh)
  refine ⟨{ ctx with st := broadcast { ctx.st with history := ctx.st.history ++ [(ctx.name, m)] } (Operation.FromPeer ctx.name m) [] }, ?_, rfl, rfl, rfl, rfl, broadcast_peers_length _ _ _, ?_, fun _ _ _ => rfl⟩
  · simp [handleStep, hE]
  · intro a p hmem hopen
    exact ⟨pushOp p (Operation.FromPeer ctx.name m),
      mem_broadcast_nil_peers _ hmem,
      pushOp_username p _, pushOp_queue_of_open _ hopen⟩

theorem C1_broadcast_includes_sender_witness :
    ∃ ctx', handleStep 0 (HandlerCtx.mk twoNamedPeers "alice" [])
        (Item.ok (Operation.FromClient (ClientCommand.SendMessage (Message.Text "x")))) []
        = Except.ok (ctx', []) ∧
      ctx'.name = "alice" ∧ ctx'.out = [] ∧
      ctx'.st.name = "srv" ∧
      ctx'.st.history = [] ++ [("alice", Message.Text "x")] ∧
      ctx'.st.peers.length = twoNamedPeers.peers.length ∧
      (∀ a p, (a, p) ∈ twoNamedPeers.peers → p.closed = false →
        ∃ p', (a, p') ∈ ctx'.st.peers ∧ p'.username = p.username ∧
          p'.queue = p.queue ++ [Operation.FromPeer "alice" (Message.Text "x")]) ∧
      (∀ (addr2 : Addr) (ctx2 : HandlerCtx) (u : User),
        handleStep addr2 ctx2 (Item.ok (Operation.FromPeer u (Message.Text "x"))) []
          = Except.ok ({ ctx2 with
              out := ctx2.out ++ [ServerCommand.UserMessage u (Message.Text "x")] }, [])) :=
  C1_broadcast_includes_sender 0 (HandlerCtx.mk twoNamedPeers "alice" [])
    (Message.Text "x") [] (by decide)

/-- C3 counterexample: an input/output error on the transport is surfaced
by `RecvPeer::poll_next` as an error item, not as end of stream, and the
event loop does **not** end there: with a fresh session (address 0) and a
connected peer "bob", the trace made of a transport error followed by a
well-formed `SetName("carol")` line is processed past the error — the
session answers `Error("What's that?")`, then handles the `SetName`
normally (registry updated, welcome broadcast, server name written back).
No teardown is triggered by the error: address 0 is still registered
afterwards.  This refutes the claim that a transport error ends the
session's event loop and triggers the teardown sequence. -/
theorem C3_counterexample :
    poll_next carolDecode [] [TransportItem.ioErr, TransportItem.line "sn"]
      = (some Item.err, [], [TransportItem.line "sn"]) ∧
    poll_next carolDecode [] [TransportItem.line "sn"]
      = (some (Item.ok (Operation.FromClient (ClientCommand.SetName "carol"))), [], []) ∧
    runLoop 0 (HandlerCtx.mk freshAndBob "" [])
        [Item.err, Item.ok (Operation.FromClient (ClientCommand.SetName "carol"))] []
      = Except.ok (HandlerCtx.mk
          (ServerState.mk "srv" []
            [(0, SendPeer.mk
              [Operation.FromServer (ServerCommand.ServerMessage (Message.Text "Welcome, carol!")),
               Operation.FromServer (ServerCommand.UserList [("carol", 0), ("bob", 1)])]
              false "carol" 0),
             (1, SendPeer.mk
              [Operation.FromServer (ServerCommand.ServerMessage (Message.Text "Welcome, carol!")),
               Operation.FromServer (ServerCommand.UserList [("carol", 0), ("bob", 1)])]
              false "bob" 1)])
          "carol" [ServerCommand.Error "What's that?", ServerCommand.ServerName "srv"], []) :=
  ⟨rfl, rfl, rfl⟩

/-- C3 amended: a transport read error is surfaced by `poll_next` as a
recoverable error item, handled exactly like a decode error: the session
writes `Error("What's that?")` to its own client and continues its loop
with shared state, local name and every peer queue untouched — so nothing
is propagated to other sessions; the loop ends (and the teardown sequence
runs) only when the merged stream reaches end of stream, while a failed
write of the error reply makes the handler return early **without**
teardown. -/
theorem C3_transport_error_recoverable :
    (∀ (decode : String → Option ClientCommand) (rest : List TransportItem),
      poll_next decode [] (TransportItem.ioErr :: rest) = (some Item.err, [], rest)) ∧
    (∀ (addr : Addr) (ctx : HandlerCtx),
      handleStep addr ctx Item.err []
        = Except.ok ({ ctx with out := ctx.out ++ [ServerCommand.Error "What's that?"] },
            [])) ∧
    (∀ (addr : Addr) (st : ServerState),
      handle addr st [Item.err] []
        = Except.ok (teardown addr
            (HandlerCtx.mk st "" [ServerCommand.Error "What's that?"]))) ∧
    (∀ (addr : Addr) (st : ServerState),
      handle addr st [Item.err] [false] = Except.error (HandlerCtx.mk st "" [])) :=
  ⟨fun _ _ => rfl, fun _ _ => rfl, fun _ _ => rfl, fun _ _ => rfl⟩

/-- C2: evaluation of `Server::handle` at the failing input.  The session
at address 0 names itself "alice" (the write of the server name succeeds),
then a broadcast `FromPeer("bob", "hi")` must be forwarded to its client
and that transport write fails: the `?` in the send helper returns from
`handle` before the release-resources block, so the session ends with
**no** teardown — address 0 is still registered, and bob's queue holds only
the welcome and user-list operations from the naming step: no
`ServerMessage("alice left.")` and no departure user list were broadcast,
and `deregister` never happened for this session. -/
theorem C2_teardown_skipped_on_write_failure :
    handle 0 freshAndBob
        [Item.ok (Operation.FromClient (ClientCommand.SetName "alice")),
         Item.ok (Operation.FromPeer "bob" (Message.Text "hi"))]
        [true, false]
      = Except.error (HandlerCtx.mk
          (ServerState.mk "srv" []
            [(0, SendPeer.mk
              [Operation.FromServer (ServerCommand.ServerMessage (Message.Text "Welcome, alice!")),
               Operation.FromServer (ServerCommand.UserList [("alice", 0), ("bob", 1)])]
              false "alice" 0),
             (1, SendPeer.mk
              [Operation.FromServer (ServerCommand.ServerMessage (Message.Text "Welcome, alice!")),
               Operation.FromServer (ServerCommand.UserList [("alice", 0), ("bob", 1)])]
              false "bob" 1)])
          "alice" [ServerCommand.ServerName "srv"]) ∧
    (∀ ap ∈
        [(0, SendPeer.mk
            [Operation.FromServer (ServerCommand.ServerMessage (Message.Text "Welcome, alice!")),
             Operation.FromServer (ServerCommand.UserList [("alice", 0), ("bob", 1)])]
            false "alice" 0),
         (1, SendPeer.mk
            [Operation.FromServer (ServerCommand.ServerMessage (Message.Text "Welcome, alice!")),
             Operation.FromServer (ServerCommand.UserList [("alice", 0), ("bob", 1)])]
            false "bob" 1)],
      Operation.FromServer (ServerCommand.ServerMessage (Message.Text "alice left."))
        ∉ (ap : Addr × SendPeer).2.queue) :=
  ⟨rfl, by decide⟩

/-- C8: evaluation of `Server::handle` at the failing input.  A session at
address 5 (still unnamed) receives a broadcast `FromPeer("dave", "yo")`,
and the transport write forwarding it fails: the handler returns early,
skipping the teardown block, so this disconnect happens with **no**
`broadcast_user_list` call — dave (address 9) never receives any
`UserList`, his queue is left empty and address 5 is still registered. -/
theorem C8_no_user_list_on_failed_write_disconnect :
    handle 5 freshAndDave
        [Item.ok (Operation.FromPeer "dave" (Message.Text "yo"))] [false]
      = Except.error (HandlerCtx.mk freshAndDave "" []) ∧
    (∀ ap ∈ freshAndDave.peers, (ap : Addr × SendPeer).2.queue = []) ∧
    (5, SendPeer.mk [] false "" 5) ∈ freshAndDave.peers :=
  ⟨rfl, by decide, by decide⟩

/-- C6: processing `FromClient(SetName(n))`: an empty `n` is ignored with
the whole context unchanged.  A non-empty `n` on the **first** successful
set (local name still empty) updates the registry record at this address to
`n`, pushes `ServerMessage("Welcome, n!")` followed by the updated user
list onto every attached peer queue (so the user list, derived after the
name update, is broadcast after the welcome), and writes the server's
display name back to this client only (it appears in this session's
transport output and in no peer queue, which receive exactly the two
operations listed).  A non-empty `n` on a later set updates the registry
record and pushes exactly the updated user list onto every attached peer
queue, with nothing written to this session's own transport. -/
theorem C6_set_name (addr : Addr) (ctx : HandlerCtx) (n : User) (ws : List Bool) :
    handleStep addr ctx (Item.ok (Operation.FromClient (ClientCommand.SetName ""))) ws
      = Except.ok (ctx, ws) ∧
    (n ≠ "" → ctx.name = "" →
      ∃ ctx', handleStep addr ctx (Item.ok (Operation.FromClient (ClientCommand.SetName n))) []
          = Except.ok (ctx', []) ∧
        ctx'.name = n ∧
        ctx'.out = ctx.out ++ [ServerCommand.ServerName ctx.st.name] ∧
        ctx'.st.name = ctx.st.name ∧ ctx'.st.history = ctx.st.history ∧
        ctx'.st.peers.length = ctx.st.peers.length ∧
        (∀ a p, (a, p) ∈ ctx.st.peers → p.closed = false →
          ∃ p', (a, p') ∈ ctx'.st.peers ∧
            p'.username = (if a = addr then n else p.username) ∧
            p'.queue = p.queue ++
              [Operation.FromServer (ServerCommand.ServerMessage
                (Message.Text ("Welcome, " ++ n ++ "!"))),
               Operation.FromServer (ServerCommand.UserList
                 (userListEntries (setUsername ctx.st addr n)))])) ∧
    (n ≠ "" → ctx.name ≠ "" →
      ∃ ctx', handleStep addr ctx (Item.ok (Operation.FromClient (ClientCommand.SetName n))) ws
          = Except.ok (ctx', ws) ∧
        ctx'.name = n ∧ ctx'.out = ctx.out ∧
        ctx'.st.name = ctx.st.name ∧ ctx'.st.history = ctx.st.history ∧
        ctx'.st.peers.length = ctx.st.peers.length ∧
        (∀ a p, (a, p) ∈ ctx.st.peers → p.closed = false →
          ∃ p', (a, p') ∈ ctx'.st.peers ∧
            p'.username = (if a = addr then n else p.username) ∧
            p'.queue = p.queue ++
              [Operation.FromServer (ServerCommand.UserList
                (userListEntries (setUsername ctx.st addr n)))])) := by
  refine ⟨rfl, ?_, ?_⟩
  · intro hn h0
    have hnE : n.isEmpty = false :=
      Bool.eq_false_iff.mpr fun hh => hn ((String.isEmpty_iff n).mp hh)
    have h0E : ctx.name.isEmpty = true := by rw [h0]; rfl
    refine ⟨HandlerCtx.mk (broadcast_user_list (broadcast (setUsername ctx.st addr n) (Operation.FromServer (ServerCommand.ServerMessage (Message.Text ("Welcome, " ++ n ++ "!")))) [])) n (ctx.out ++ [ServerCommand.ServerName ctx.st.name]), ?_, rfl, rfl, rfl, rfl, ?_, ?_⟩
    · simp [handleStep, hnE, h0E, tryWrite]
      rfl
    · show ((broadcast_user_list _).peers.length = _)
      rw [broadcast_user_list]
      rw [broadcast_peers_length, broadcast_peers_length]
      show (setUsername ctx.st addr n).peers.length = ctx.st.peers.length
      simp [setUsername]
    · intro a p hm hopen
      have h1 := mem_setUsername_peers addr n hm
      have hp1closed : (if a = addr then { p with username := n } else p).closed = false := by
        by_cases hc : a = addr
        · rw [if_pos hc]; exact hopen
        · rw [if_neg hc]; exact hopen
      have h2 := mem_broadcast_nil_peers
        (Operation.FromServer (ServerCommand.ServerMessage
          (Message.Text ("Welcome, " ++ n ++ "!")))) h1
      have h3 := mem_broadcast_user_list_peers h2
      rw [userListEntries_broadcast] at h3
      refine ⟨_, h3, ?_, ?_⟩
      · rw [pushOp_username, pushOp_username]
        by_cases hc : a = addr
        · rw [if_pos hc, if_pos hc]
        · rw [if_neg hc, if_neg hc]
      · have hc1 : (pushOp (if a = addr then { p with username := n } else p)
            (Operation.FromServer (ServerCommand.ServerMessage
              (Message.Text ("Welcome, " ++ n ++ "!"))))).closed = false := by
          rw [pushOp_closed]; exact hp1closed
        rw [pushOp_queue_of_open _ hc1, pushOp_queue_of_open _ hp1closed]
        have hq : (if a = addr then { p with username := n } else p).queue = p.queue := by
          by_cases hc : a = addr
          · rw [if_pos hc]
          · rw [if_neg hc]
        rw [hq, List.append_assoc]
        rfl
  · intro hn h1
    have hnE : n.isEmpty = false :=
      Bool.eq_false_iff.mpr fun hh => hn ((String.isEmpty_iff n).mp hh)
    have h1E : ctx.name.isEmpty = false :=
      Bool.eq_false_iff.mpr fun hh => h1 ((String.isEmpty_iff ctx.name).mp hh)
    refine ⟨HandlerCtx.mk (broadcast_user_list (setUsername ctx.st addr n)) n ctx.out, ?_, rfl, rfl, rfl, rfl, ?_, ?_⟩
    · simp [handleStep, hnE, h1E]
    · show ((broadcast_user_list _).peers.length = _)
      rw [broadcast_user_list, broadcast_peers_length]
      show (setUsername ctx.st addr n).peers.length = ctx.st.peers.length
      simp [setUsername]
    · intro a p hm hopen
      have hmem := mem_setUsername_peers addr n hm
      have hp1closed : (if a = addr then { p with username := n } else p).closed = false := by
        by_cases hc : a = addr
        · rw [if_pos hc]; exact hopen
        · rw [if_neg hc]; exact hopen
      have h3 := mem_broadcast_user_list_peers hmem
      refine ⟨_, h3, ?_, ?_⟩
      · rw [pushOp_username]
        by_cases hc : a = addr
        · rw [if_pos hc, if_pos hc]
        · rw [if_neg hc, if_neg hc]
      · rw [pushOp_queue_of_open _ hp1closed]
        have hq : (if a = addr then { p with username := n } else p).queue = p.queue := by
          by_cases hc : a = addr
          · rw [if_pos hc]
          · rw [if_neg hc]
        rw [hq]

theorem C6_set_name_witness :
    ∃ ctx', handleStep 0 (HandlerCtx.mk freshAndBob "" [])
        (Item.ok (Operation.FromClient (ClientCommand.SetName "alice"))) []
        = Except.ok (ctx', []) ∧
      ctx'.name = "alice" ∧
      ctx'.out = [] ++ [ServerCommand.ServerName "srv"] ∧
      ctx'.st.name = "srv" ∧ ctx'.st.history = [] ∧
      ctx'.st.peers.length = freshAndBob.peers.length ∧
      (∀ a p, (a, p) ∈ freshAndBob.peers → p.closed = false →
        ∃ p', (a, p') ∈ ctx'.st.peers ∧
          p'.username = (if a = 0 then "alice" else p.username) ∧
          p'.queue = p.queue ++
            [Operation.FromServer (ServerCommand.ServerMessage
              (Message.Text ("Welcome, " ++ "alice" ++ "!"))),
             Operation.FromServer (ServerCommand.UserList
               (userListEntries (setUsername freshAndBob 0 "alice")))]) :=
  (C6_set_name 0 (HandlerCtx.mk freshAndBob "" []) "alice" []).2.1 (by decide) rfl

theorem fst_of_mem_broadcast_peers {st : ServerState} {op : Operation}
    {ex : List Addr} {x : Addr × SendPeer}
    (h : x ∈ (broadcast st op ex).peers) : ∃ y ∈ st.peers, x.1 = y.1 := by
  unfold broadcast at h
  obtain ⟨y, hy, heq⟩ := List.mem_map.1 h
  have heq2 : (if ex.contains y.1 = true then y else (y.1, pushOp y.2 op)) = x := heq
  refine ⟨y, hy, ?_⟩
  by_cases hc : ex.contains y.1 = true
  · rw [if_pos hc] at heq2; rw [← heq2]
  · rw [if_neg hc] at heq2; rw [← heq2]

theorem fst_of_mem_bul_peers {st : ServerState} {x : Addr × SendPeer}
    (h : x ∈ (broadcast_user_list st).peers) : ∃ y ∈ st.peers, x.1 = y.1 :=
  fst_of_mem_broadcast_peers h

/-- Run-level invariant: over a trace holding no accepted `SetName` (and
with every transport write succeeding), the event loop leaves the shared
state and the empty local name untouched — the only effect is on the
session's own transport output. -/
theorem runLoop_no_accepted_setName (addr : Addr) (items : List Item) :
    ∀ (st : ServerState) (os : List ServerCommand),
      (∀ it ∈ items, acceptedSetName it = false) →
      ∃ out', runLoop addr (HandlerCtx.mk st "" os) items []
        = Except.ok (HandlerCtx.mk st "" out', []) := by
  induction items with
  | nil => exact fun st os _ => ⟨os, rfl⟩
  | cons it rest ih =>
    intro st os hno
    have hit := hno it (List.mem_cons_self it rest)
    have hrest : ∀ x ∈ rest, acceptedSetName x = false :=
      fun x hx => hno x (List.mem_cons_of_mem it hx)
    have hE : String.isEmpty "" = true := rfl
    cases it with
    | err =>
      simpa [runLoop, handleStep, tryWrite] using
        ih st (os ++ [ServerCommand.Error "What's that?"]) hrest
    | ok op =>
      cases op with
      | FromClient c =>
        cases c with
        | SetName s =>
          have hs : s.isEmpty = true := by
            simpa [acceptedSetName] using hit
          simpa [runLoop, handleStep, hs] using ih st os hrest
        | SendMessage m =>
          simpa [runLoop, handleStep, hE] using ih st os hrest
      | FromPeer u m =>
        simpa [runLoop, handleStep, tryWrite] using
          ih st (os ++ [ServerCommand.UserMessage u m]) hrest
      | FromServer c =>
        simpa [runLoop, handleStep, tryWrite] using ih st (os ++ [c]) hrest

/-- C10: a session that disconnects while still unnamed (its trace holds no
accepted `SetName`, writes succeeding) still runs the teardown sequence,
with the empty name: the address is deregistered (no remaining record
carries it), and every other attached peer receives exactly
`ServerMessage(" left.")` — the empty-name prefix — followed by the user
list derived from the registry without the departed session; in particular
those two operations are everything this session ever pushed to its peers,
so no welcome message was ever broadcast for it. -/
theorem C10_unnamed_teardown (st : ServerState) (addr : Addr)
    (items : List Item) (hno : ∀ it ∈ items, acceptedSetName it = false) :
    ∃ ctxF, handle addr st items [] = Except.ok ctxF ∧
      ctxF.name = "" ∧
      (∀ ap ∈ ctxF.st.peers, (ap : Addr × SendPeer).1 ≠ addr) ∧
      (∀ a p, (a, p) ∈ st.peers → a ≠ addr → p.closed = false →
        ∃ p', (a, p') ∈ ctxF.st.peers ∧ p'.username = p.username ∧
          p'.queue = p.queue ++
            [Operation.FromServer (ServerCommand.ServerMessage (Message.Text " left.")),
             Operation.FromServer (ServerCommand.UserList
               (userListEntries (ServerState.mk st.name st.history
                 (st.peers.filter fun ap => ap.1 ≠ addr))))]) := by
  obtain ⟨out', hrun⟩ := runLoop_no_accepted_setName addr items st [] hno
  have hhandle : handle addr st items []
      = Except.ok (teardown addr (HandlerCtx.mk st "" out')) := by
    unfold handle
    rw [hrun]
  refine ⟨teardown addr (HandlerCtx.mk st "" out'), hhandle, rfl, ?_, ?_⟩
  · intro x hx
    obtain ⟨y2, hy2, e2⟩ := fst_of_mem_bul_peers hx
    obtain ⟨y1, hy1, e1⟩ := fst_of_mem_broadcast_peers hy2
    have hmf := List.mem_filter.1 hy1
    have hd : decide (y1.1 ≠ addr) = true := hmf.2
    rw [e2, e1]
    exact of_decide_eq_true hd
  · intro a p hm ha hopen
    have hf : (a, p) ∈ st.peers.filter fun ap => ap.1 ≠ addr :=
      List.mem_filter.2 ⟨hm, decide_eq_true ha⟩
    have hf2 : (a, p) ∈ (ServerState.mk st.name st.history
        (st.peers.filter fun ap => ap.1 ≠ addr)).peers := hf
    have h2 := mem_broadcast_nil_peers
      (Operation.FromServer (ServerCommand.ServerMessage (Message.Text " left."))) hf2
    have h3 := mem_broadcast_user_list_peers h2
    rw [userListEntries_broadcast] at h3
    have hc1 : (pushOp p (Operation.FromServer
        (ServerCommand.ServerMessage (Message.Text " left.")))).closed = false := by
      rw [pushOp_closed]; exact hopen
    refine ⟨_, h3, ?_, ?_⟩
    · rw [pushOp_username, pushOp_username]
    · rw [pushOp_queue_of_open _ hc1, pushOp_queue_of_open _ hopen,
        List.append_assoc]
      rfl

theorem C10_unnamed_teardown_witness :
    ∃ ctxF, handle 0 freshAndBob
        [Item.ok (Operation.FromClient (ClientCommand.SetName "")), Item.err] []
        = Except.ok ctxF ∧
      ctxF.name = "" ∧
      (∀ ap ∈ ctxF.st.peers, (ap : Addr × SendPeer).1 ≠ 0) ∧
      (∀ a p, (a, p) ∈ freshAndBob.peers → a ≠ 0 → p.closed = false →
        ∃ p', (a, p') ∈ ctxF.st.peers ∧ p'.username = p.username ∧
          p'.queue = p.queue ++
            [Operation.FromServer (ServerCommand.ServerMessage (Message.Text " left.")),
             Operation.FromServer (ServerCommand.UserList
               (userListEntries (ServerState.mk freshAndBob.name freshAndBob.history
                 (freshAndBob.peers.filter fun ap => ap.1 ≠ 0))))]) :=
  C10_unnamed_teardown freshAndBob 0
    [Item.ok (Operation.FromClient (ClientCommand.SetName "")), Item.err]
    (by decide)

end ChatRs
